import Mathlib

/-!
Shallow embedding of `pymanopt/manifolds/stiefel.py` (class `Stiefel`).

Matrices are modelled as Mathlib matrices over `ℚ` (exact arithmetic standing
in for IEEE floats; every operation of the source is +, -, *, /2 on entries,
which floats perform exactly up to rounding and rationals perform exactly).
A `k = 1` point is a single `n × p` matrix; a `k > 1` point is a `List` of
`k` slices, in order.  Fallible Python code (raised exceptions) is embedded
as `Except PyErr`.  The external kernels (`np.linalg.qr`, `scipy.linalg.expm`)
are trusted collaborators and enter as explicit function parameters.
-/

namespace PymanoptStiefel

open Matrix

/-- The error kinds the source can surface: `ValueError` on bad construction
dimensions (the spec's InvalidDimension), `NotImplementedError` from `dist`
and `log`, and Python's `NameError` for a reference to an unbound name. -/
inductive PyErr where
  | invalidDimension : PyErr
  | notImplemented : PyErr
  | nameError : PyErr
deriving DecidableEq, Repr

/-- An `n × p` real matrix of the source, modelled over `ℚ`. -/
abbrev Mat (n p : ℕ) : Type := Matrix (Fin n) (Fin p) ℚ

/-- Modelled from the spec: `multitransp` from `pymanopt.tools.multi` (the
module is not under `src/`); the spec's "batched-matrix helper layer
(product-transpose, ...)": transpose each slice of the stack. -/
def multitransp {n p : ℕ} (A : List (Mat n p)) : List (Matrix (Fin p) (Fin n) ℚ) :=
  A.map Matrix.transpose

/-- Modelled from the spec: `multiprod` from `pymanopt.tools.multi` (not under
`src/`); the spec's "product-multiply": matrix-multiply the stacks slice by
slice. -/
def multiprod {m n p : ℕ} (A : List (Matrix (Fin m) (Fin n) ℚ))
    (B : List (Matrix (Fin n) (Fin p) ℚ)) : List (Matrix (Fin m) (Fin p) ℚ) :=
  List.zipWith (· * ·) A B

/-- Modelled from the spec: `multisym` from `pymanopt.tools.multi` (not under
`src/`); the spec's "symmetric part": `(M + Mᵗ)/2` on each slice. -/
def multisym {p : ℕ} (A : List (Matrix (Fin p) (Fin p) ℚ)) :
    List (Matrix (Fin p) (Fin p) ℚ) :=
  A.map (fun M => (1/2 : ℚ) • (M + Mᵀ))

/-- Elementwise sum of two stacks (numpy `+` on `k × n × p` arrays). -/
def stackAdd {n p : ℕ} (A B : List (Mat n p)) : List (Mat n p) :=
  List.zipWith (· + ·) A B

/-- Elementwise difference of two stacks (numpy `-` on `k × n × p` arrays). -/
def stackSub {n p : ℕ} (A B : List (Mat n p)) : List (Mat n p) :=
  List.zipWith (· - ·) A B

/-- Elementwise division of a stack by the scalar 2 (numpy `/ 2`). -/
def stackHalf {n p : ℕ} (A : List (Mat n p)) : List (Mat n p) :=
  A.map (fun M => (1/2 : ℚ) • M)

/-- The spec's `sym(M) = (M + Mᵗ)/2` (§4.3), written from the spec's words to
compare against the source's computations. -/
def sym {p : ℕ} (M : Matrix (Fin p) (Fin p) ℚ) : Matrix (Fin p) (Fin p) ℚ :=
  (1/2 : ℚ) • (M + Mᵀ)

/-- The manifold descriptor built by `Stiefel.__init__` (lines 17-36): the
fields `_n`, `_p`, `_k`, the derived `_dim` and the display `_name`. -/
structure StiefelDesc where
  n : ℤ
  p : ℤ
  k : ℤ
  dimVal : ℚ
  nameVal : String
deriving DecidableEq, Repr

/-- The name string of lines 32-36: `"Stiefel manifold St(n, p)"` when
`k == 1`, `"Product Stiefel manifold St(n, p)^k"` when `k >= 2`. -/
def stiefelName (n p k : ℤ) : String :=
  if k = 1 then
    "Stiefel manifold St(" ++ toString n ++ ", " ++ toString p ++ ")"
  else
    "Product Stiefel manifold St(" ++ toString n ++ ", " ++ toString p ++ ")^"
      ++ toString k

/-- `Stiefel.__init__(height, width, k)` (lines 17-36): raise `ValueError`
when `height < width or width < 1`, raise `ValueError` when `k < 1`;
otherwise store the dimensions, set `_dim = k*(n*p - 0.5*p*(p+1))` and the
name. -/
def Stiefel.init (height width : ℤ) (k : ℤ) : Except PyErr StiefelDesc :=
  if height < width ∨ width < 1 then Except.error PyErr.invalidDimension
  else if k < 1 then Except.error PyErr.invalidDimension
  else Except.ok
    { n := height
      p := width
      k := k
      dimVal := (k : ℚ) * ((height : ℚ) * (width : ℚ)
        - (1/2 : ℚ) * (width : ℚ) * ((width : ℚ) + 1))
      nameVal := stiefelName height width k }

/-- The `dim` property (lines 38-40): returns the stored `_dim` unchanged. -/
def StiefelDesc.dim (M : StiefelDesc) : ℚ := M.dimVal

/-- The `name` property (lines 42-44): returns the stored `_name` unchanged. -/
def StiefelDesc.name (M : StiefelDesc) : String := M.nameVal

/-- `dist(X, Y)` (lines 50-52): `raise NotImplementedError()`. -/
def Stiefel.dist {n p : ℕ} (_M : StiefelDesc) (_X _Y : Mat n p) :
    Except PyErr ℚ :=
  Except.error PyErr.notImplemented

/-- `log(X, Y)` (lines 122-123): `raise NotImplementedError`. -/
def Stiefel.log {n p : ℕ} (_M : StiefelDesc) (_X _Y : Mat n p) :
    Except PyErr (Mat n p) :=
  Except.error PyErr.notImplemented

/-- `inner(X, G, H)` (lines 54-57) for a `k = 1` (2-D) input:
`np.tensordot(G, H, axes=2)`, the full contraction `Σᵢⱼ Gᵢⱼ·Hᵢⱼ`.  The point
`X` is accepted and ignored, as in the source. -/
def Stiefel.inner {n p : ℕ} (_X : Mat n p) (G H : Mat n p) : ℚ :=
  ∑ i : Fin n, ∑ j : Fin p, G i j * H i j

/-- `inner(X, G, H)` (lines 54-57) for a `k > 1` (3-D) input:
`np.tensordot(G, H, axes=3)`, the contraction over all three axes — slice
index included — returning one scalar. -/
def Stiefel.innerStack {n p : ℕ} (_X : List (Mat n p)) (G H : List (Mat n p)) : ℚ :=
  (List.zipWith (fun g h => ∑ i : Fin n, ∑ j : Fin p, g i j * h i j) G H).sum

/-- The square of `norm(X, G)` (lines 92-95) for a 2-D `G`:
`np.linalg.norm(G)` is the 2-norm of the flattened array, so its square is
`Σᵢⱼ Gᵢⱼ²`.  `X` is accepted and ignored, as in the source. -/
def Stiefel.normSq {n p : ℕ} (_X : Mat n p) (G : Mat n p) : ℚ :=
  ∑ i : Fin n, ∑ j : Fin p, (G i j) ^ 2

/-- The square of `norm(X, G)` (lines 92-95) for a 3-D stack `G`:
`np.linalg.norm` flattens the whole `k × n × p` array, so the square is the
sum of all entries' squares across every slice. -/
def Stiefel.normSqStack {n p : ℕ} (_X : List (Mat n p)) (G : List (Mat n p)) : ℚ :=
  (G.map (fun g => ∑ i : Fin n, ∑ j : Fin p, (g i j) ^ 2)).sum

/-- `proj(X, U)` (lines 59-63), the `k == 1` branch:
`U - np.dot(X, np.dot(X.T, U) + np.dot(U.T, X)) / 2`. -/
def Stiefel.proj {n p : ℕ} (X U : Mat n p) : Mat n p :=
  U - (1/2 : ℚ) • (X * (Xᵀ * U + Uᵀ * X))

/-- `proj(X, U)` (lines 65-67), the `k > 1` branch:
`U - multiprod(X, multiprod(multitransp(X), U) + multiprod(multitransp(U), X)) / 2`. -/
def Stiefel.projStack {n p : ℕ} (X U : List (Mat n p)) : List (Mat n p) :=
  stackSub U (stackHalf (multiprod X
    (stackAdd (multiprod (multitransp X) U) (multiprod (multitransp U) X))))

/-- `egrad2rgrad = proj` (line 69), `k == 1` branch: the class attribute
aliases the projection itself. -/
def Stiefel.egrad2rgrad {n p : ℕ} : Mat n p → Mat n p → Mat n p :=
  Stiefel.proj

/-- `egrad2rgrad = proj` (line 69), `k > 1` branch. -/
def Stiefel.egrad2rgradStack {n p : ℕ} : List (Mat n p) → List (Mat n p) → List (Mat n p) :=
  Stiefel.projStack

/-- `ehess2rhess(X, egrad, ehess, H)` (lines 71-76) on one slice (for 2-D
inputs the `multi` helpers are the plain matrix operations):
`XtG = Xᵀ·egrad`, `symXtG = (XtG + XtGᵀ)/2`, `HsymXtG = H·symXtG`, and the
result is `proj(X, ehess - HsymXtG)`. -/
def Stiefel.ehess2rhess {n p : ℕ} (X egrad ehess H : Mat n p) : Mat n p :=
  Stiefel.proj X (ehess - H * ((1/2 : ℚ) • (Xᵀ * egrad + (Xᵀ * egrad)ᵀ)))

/-- `ehess2rhess(X, egrad, ehess, H)` (lines 71-76) on a `k > 1` stack, via
the stacked `multi` helpers and the `k > 1` branch of `proj`. -/
def Stiefel.ehess2rhessStack {n p : ℕ} (X egrad ehess H : List (Mat n p)) :
    List (Mat n p) :=
  Stiefel.projStack X
    (stackSub ehess (multiprod H (multisym (multiprod (multitransp X) egrad))))

/-- `np.sign` on one rational: `1` for positive, `-1` for negative, `0` for
zero. -/
def npSign (x : ℚ) : ℚ := if 0 < x then 1 else if x < 0 then -1 else 0

/-- The column sign fix of `retr` (line 84): the diagonal matrix
`np.diag(np.sign(np.sign(np.diag(r)) + .5))` built from the diagonal of `r`. -/
def signFix {p : ℕ} (r : Matrix (Fin p) (Fin p) ℚ) : Matrix (Fin p) (Fin p) ℚ :=
  Matrix.diagonal (fun i => npSign (npSign (r i i) + 1/2))

/-- `retr(X, G)` (lines 79-84), the `k == 1` branch, with the thin-QR kernel
`np.linalg.qr` passed in as the trusted external function `qr`:
`q, r = qr(X + G)` then `np.dot(q, np.diag(np.sign(np.sign(np.diag(r)) + .5)))`. -/
def Stiefel.retr {n p : ℕ} (qr : Mat n p → Mat n p × Matrix (Fin p) (Fin p) ℚ)
    (X G : Mat n p) : Mat n p :=
  (qr (X + G)).1 * signFix (qr (X + G)).2

/-- `retr(X, G)` (lines 85-89), the `k > 1` branch.  The source computes
`XNew = X + G` and then, for each slice `i`, runs `q, r = np.linalg.qr(Y[i])`
— but the name `Y` is bound nowhere in `retr`, so the first loop iteration
(which always runs, as `k >= 2`) raises `NameError` and the branch never
returns a value. -/
def Stiefel.retrStack {n p : ℕ}
    (_qr : Mat n p → Mat n p × Matrix (Fin p) (Fin p) ℚ)
    (_X _G : List (Mat n p)) : Except PyErr (List (Mat n p)) :=
  Except.error PyErr.nameError

/-- `exp(X, U)` (lines 127-130), the `k == 1` branch, with the dense matrix
exponentials passed in as trusted external kernels (`expm2` for the `2p × 2p`
argument, `expm1` for the `p × p` one):
`np.bmat([X, U]).dot(expm(np.bmat([[XᵀU, -UᵀU], [I, XᵀU]]))).dot(np.bmat([[expm(-XᵀU)], [0]]))`. -/
def Stiefel.exp {n p : ℕ}
    (expm2 : Matrix (Fin p ⊕ Fin p) (Fin p ⊕ Fin p) ℚ →
      Matrix (Fin p ⊕ Fin p) (Fin p ⊕ Fin p) ℚ)
    (expm1 : Matrix (Fin p) (Fin p) ℚ → Matrix (Fin p) (Fin p) ℚ)
    (X U : Mat n p) : Mat n p :=
  Matrix.fromColumns X U
    * expm2 (Matrix.fromBlocks (Xᵀ * U) (-(Uᵀ * U)) (1 : Matrix (Fin p) (Fin p) ℚ) (Xᵀ * U))
    * Matrix.fromRows (expm1 (-(Xᵀ * U))) (0 : Matrix (Fin p) (Fin p) ℚ)

/-- `exp(X, U)` (lines 131-136), the `k > 1` branch: a fresh output stack is
filled slice by slice with
`np.bmat([X[i], U[i]]).dot(expm(np.bmat([[X[i]ᵀU[i], -U[i]ᵀU[i]], [I, X[i]ᵀU[i]]]))).dot(np.bmat([[expm(-X[i]ᵀU[i])], [0]]))`. -/
def Stiefel.expStack {n p : ℕ}
    (expm2 : Matrix (Fin p ⊕ Fin p) (Fin p ⊕ Fin p) ℚ →
      Matrix (Fin p ⊕ Fin p) (Fin p ⊕ Fin p) ℚ)
    (expm1 : Matrix (Fin p) (Fin p) ℚ → Matrix (Fin p) (Fin p) ℚ)
    (X U : List (Mat n p)) : List (Mat n p) :=
  List.zipWith
    (fun Xi Ui =>
      Matrix.fromColumns Xi Ui
        * expm2 (Matrix.fromBlocks (Xiᵀ * Ui) (-(Uiᵀ * Ui))
            (1 : Matrix (Fin p) (Fin p) ℚ) (Xiᵀ * Ui))
        * Matrix.fromRows (expm1 (-(Xiᵀ * Ui))) (0 : Matrix (Fin p) (Fin p) ℚ))
    X U

/-- The spec's dimension formula `k·(n·p − p(p+1)/2)` (§3), a pure function
of `(n, p, k)`. -/
def dimFormula (n p k : ℤ) : ℚ :=
  (k : ℚ) * ((n : ℚ) * (p : ℚ) - (p : ℚ) * ((p : ℚ) + 1) / 2)

/-- The spec's closed-form exponential (§4.4), written from the spec's words:
with `A = Xᵗ·U`, the new point is
`[X | U] · expm([[A, −UᵗU], [I, A]]) · [expm(−A); 0]`. -/
def expSpecFormula {n p : ℕ}
    (expm2 : Matrix (Fin p ⊕ Fin p) (Fin p ⊕ Fin p) ℚ →
      Matrix (Fin p ⊕ Fin p) (Fin p ⊕ Fin p) ℚ)
    (expm1 : Matrix (Fin p) (Fin p) ℚ → Matrix (Fin p) (Fin p) ℚ)
    (X U : Mat n p) : Mat n p :=
  Matrix.fromColumns X U
    * expm2 (Matrix.fromBlocks (Xᵀ * U) (-(Uᵀ * U)) (1 : Matrix (Fin p) (Fin p) ℚ) (Xᵀ * U))
    * Matrix.fromRows (expm1 (-(Xᵀ * U))) (0 : Matrix (Fin p) (Fin p) ℚ)

lemma proj_eq_sym_formula {n p : ℕ} (X U : Mat n p) :
    Stiefel.proj X U = U - X * sym (Xᵀ * U) := by
  simp [Stiefel.proj, sym, Matrix.mul_smul, Matrix.mul_add,
    Matrix.transpose_mul, Matrix.transpose_transpose]

lemma multisym_multiprod_multitransp {n p : ℕ} (Xs Gs : List (Mat n p)) :
    multisym (multiprod (multitransp Xs) Gs)
      = List.zipWith (fun A G => sym (Aᵀ * G)) Xs Gs := by
  induction Xs generalizing Gs with
  | nil => simp [multisym, multiprod, multitransp]
  | cons A As ih =>
    cases Gs with
    | nil => simp [multisym, multiprod, multitransp]
    | cons G Gs' =>
      simpa [multisym, multiprod, multitransp, sym] using ih Gs'

lemma projStack_eq_zipWith {n p : ℕ} (Xs Us : List (Mat n p)) :
    Stiefel.projStack Xs Us = List.zipWith Stiefel.proj Xs Us := by
  induction Xs generalizing Us with
  | nil => simp [Stiefel.projStack, stackSub, stackHalf, stackAdd, multiprod, multitransp]
  | cons A As ih =>
    cases Us with
    | nil => simp [Stiefel.projStack, stackSub, stackHalf, stackAdd, multiprod, multitransp]
    | cons U Us' =>
      simpa [Stiefel.projStack, stackSub, stackHalf, stackAdd, multiprod,
        multitransp, Stiefel.proj] using ih Us'

/-- C3: `proj(X, U)` equals `U − X·sym(Xᵗ·U)` with `sym(M) = (M + Mᵗ)/2`, as
a single matrix operation for `k = 1` and slice by slice for `k > 1`, and
`egrad2rgrad` is the very same operation as `proj` in both branches. -/
theorem proj_formula_C3 {n p : ℕ} (X U : Mat n p) (Xs Us : List (Mat n p)) :
    Stiefel.proj X U = U - X * sym (Xᵀ * U)
    ∧ Stiefel.projStack Xs Us = List.zipWith (fun A B => B - A * sym (Aᵀ * B)) Xs Us
    ∧ @Stiefel.egrad2rgrad n p = @Stiefel.proj n p
    ∧ @Stiefel.egrad2rgradStack n p = @Stiefel.projStack n p := by
  refine ⟨proj_eq_sym_formula X U, ?_, rfl, rfl⟩
  have hfg : @Stiefel.proj n p = fun A B => B - A * sym (Aᵀ * B) :=
    funext fun A => funext fun B => proj_eq_sym_formula A B
  rw [projStack_eq_zipWith, hfg]

/-- C5: `ehess2rhess(X, egrad, ehess, H)` equals
`proj(X, ehess − H·S)` with `S = sym(Xᵗ·egrad)` and `H` multiplied on the
left of `S`, on single matrices and slice by slice on stacks. -/
theorem ehess2rhess_formula_C5 {n p : ℕ} (X egrad ehess H : Mat n p)
    (Xs egs ehs Hs : List (Mat n p)) :
    Stiefel.ehess2rhess X egrad ehess H
      = Stiefel.proj X (ehess - H * sym (Xᵀ * egrad))
    ∧ Stiefel.ehess2rhessStack Xs egs ehs Hs
      = Stiefel.projStack Xs (stackSub ehs
          (List.zipWith (· * ·) Hs (List.zipWith (fun A G => sym (Aᵀ * G)) Xs egs))) := by
  constructor
  · rfl
  · rw [Stiefel.ehess2rhessStack, multisym_multiprod_multitransp]
    rfl

/-- C6: construction fails with InvalidDimension exactly when `n < p`, `p < 1`
or `k < 1`, and otherwise succeeds, eagerly storing `dim` and `name` as pure
functions of `(n, p, k)`. -/
theorem construction_validates_C6 (n p k : ℤ) :
    Stiefel.init n p k =
      (if n < p ∨ p < 1 ∨ k < 1 then Except.error PyErr.invalidDimension
       else Except.ok
         { n := n, p := p, k := k,
           dimVal := dimFormula n p k, nameVal := stiefelName n p k }) := by
  have hdim : (k : ℚ) * ((n : ℚ) * (p : ℚ) - (1/2 : ℚ) * (p : ℚ) * ((p : ℚ) + 1))
      = dimFormula n p k := by unfold dimFormula; ring
  unfold Stiefel.init
  rw [hdim]
  split_ifs with h1 h2 h3 h4 <;> first
    | rfl
    | (exfalso; omega)

/-- C4: for valid inputs `n ≥ p ≥ 1`, `k ≥ 1` the construction succeeds, the
stored dimension equals `k·(n·p − p(p+1)/2)` exactly, and the `dim` property
returns the stored value unchanged. -/
theorem dim_value_C4 (n p k : ℤ) (h1 : p ≤ n) (h2 : 1 ≤ p) (h3 : 1 ≤ k) :
    (Stiefel.init n p k).toOption.map StiefelDesc.dim
      = some ((k : ℚ) * ((n : ℚ) * (p : ℚ) - (p : ℚ) * ((p : ℚ) + 1) / 2))
    ∧ ∀ M : StiefelDesc, M.dim = M.dimVal := by
  refine ⟨?_, fun M => rfl⟩
  have hn : ¬ (n < p ∨ p < 1) := by omega
  have hk : ¬ (k < 1) := by omega
  simp only [Stiefel.init, hn, hk, if_false, if_neg, Except.toOption,
    Option.map_some]
  norm_num [StiefelDesc.dim]
  exact Or.inl (by ring)

theorem dim_value_C4_witness :
    (Stiefel.init 5 2 1).toOption.map StiefelDesc.dim
      = some ((1 : ℚ) * ((5 : ℚ) * (2 : ℚ) - (2 : ℚ) * ((2 : ℚ) + 1) / 2)) :=
  (dim_value_C4 5 2 1 (by decide) (by decide) (by decide)).1

/-- C7: `dist` and `log` both fail with NotImplemented for every input, and
that error kind is distinguishable from InvalidDimension. -/
theorem dist_log_not_implemented_C7 {n p : ℕ} (M : StiefelDesc) (X Y : Mat n p) :
    Stiefel.dist M X Y = Except.error PyErr.notImplemented
    ∧ Stiefel.log M X Y = Except.error PyErr.notImplemented
    ∧ PyErr.notImplemented ≠ PyErr.invalidDimension :=
  ⟨rfl, rfl, by decide⟩

/-- C2: `exp(X, U)` computes exactly the spec's closed-form block construction
`[X | U] · expm([[A, −UᵗU], [I, A]]) · [expm(−A); 0]` with `A = Xᵗ·U`, for any
matrix-exponential kernels; and the `k > 1` branch is slice-for-slice the
`k = 1` branch applied to `(X_i, U_i)`, in order. -/
theorem exp_block_formula_C2 {n p : ℕ}
    (expm2 : Matrix (Fin p ⊕ Fin p) (Fin p ⊕ Fin p) ℚ →
      Matrix (Fin p ⊕ Fin p) (Fin p ⊕ Fin p) ℚ)
    (expm1 : Matrix (Fin p) (Fin p) ℚ → Matrix (Fin p) (Fin p) ℚ)
    (X U : Mat n p) (Xs Us : List (Mat n p)) :
    Stiefel.exp expm2 expm1 X U = expSpecFormula expm2 expm1 X U
    ∧ Stiefel.expStack expm2 expm1 Xs Us
      = List.zipWith (Stiefel.exp expm2 expm1) Xs Us := by
  exact ⟨rfl, rfl⟩

lemma proj_tangency {n p : ℕ} (X U : Mat n p) (hX : Xᵀ * X = 1) :
    Xᵀ * Stiefel.proj X U + (Stiefel.proj X U)ᵀ * X = 0 := by
  have hL : ∀ M : Matrix (Fin p) (Fin p) ℚ, Xᵀ * (X * M) = M := fun M => by
    rw [← Matrix.mul_assoc, hX, Matrix.one_mul]
  have hR : ∀ M : Matrix (Fin p) (Fin p) ℚ, M * Xᵀ * X = M := fun M => by
    rw [Matrix.mul_assoc, hX, Matrix.mul_one]
  simp only [Stiefel.proj, Matrix.transpose_sub, Matrix.transpose_smul,
    Matrix.transpose_mul, Matrix.transpose_transpose, Matrix.transpose_add,
    Matrix.mul_sub, Matrix.sub_mul, Matrix.mul_smul, Matrix.smul_mul, hL, hR]
  module

lemma proj_idem_slice {n p : ℕ} (X U : Mat n p) (hX : Xᵀ * X = 1) :
    Stiefel.proj X (Stiefel.proj X U) = Stiefel.proj X U := by
  have h := proj_tangency X U hX
  show Stiefel.proj X U
      - (1/2 : ℚ) • (X * (Xᵀ * Stiefel.proj X U + (Stiefel.proj X U)ᵀ * X))
    = Stiefel.proj X U
  rw [h, Matrix.mul_zero, smul_zero, sub_zero]

lemma proj_idem_stack {n p : ℕ} (Xs Us : List (Mat n p))
    (hXs : ∀ A ∈ Xs, Aᵀ * A = 1) :
    Stiefel.projStack Xs (Stiefel.projStack Xs Us) = Stiefel.projStack Xs Us := by
  simp only [projStack_eq_zipWith]
  induction Xs generalizing Us with
  | nil => simp
  | cons A As ih =>
    cases Us with
    | nil => simp
    | cons U Us' =>
      have hA : Aᵀ * A = 1 := hXs A (List.mem_cons_self A As)
      have hAs : ∀ B ∈ As, Bᵀ * B = 1 := fun B hB => hXs B (List.mem_cons_of_mem A hB)
      simpa [proj_idem_slice A U hA] using ih Us' hAs

/-- C8: at any base point whose slices are orthonormal (`Xᵗ·X = I`), the
tangent projection is idempotent: `proj(X, proj(X, U)) = proj(X, U)`, both as
a single matrix operation and on every slice of a stack. -/
theorem proj_idempotent_C8 {n p : ℕ} (X U : Mat n p) (Xs Us : List (Mat n p))
    (hX : Xᵀ * X = 1) (hXs : ∀ A ∈ Xs, Aᵀ * A = 1) :
    Stiefel.proj X (Stiefel.proj X U) = Stiefel.proj X U
    ∧ Stiefel.projStack Xs (Stiefel.projStack Xs Us) = Stiefel.projStack Xs Us :=
  ⟨proj_idem_slice X U hX, proj_idem_stack Xs Us hXs⟩

theorem proj_idempotent_C8_witness :
    Stiefel.proj (Matrix.of ![![(1 : ℚ)], ![0]]) (Stiefel.proj (Matrix.of ![![(1 : ℚ)], ![0]]) (Matrix.of ![![(2 : ℚ)], ![3]]))
      = Stiefel.proj (Matrix.of ![![(1 : ℚ)], ![0]]) (Matrix.of ![![(2 : ℚ)], ![3]])
    ∧ Stiefel.projStack [Matrix.of ![![(1 : ℚ)], ![0]]]
        (Stiefel.projStack [Matrix.of ![![(1 : ℚ)], ![0]]] [Matrix.of ![![(2 : ℚ)], ![3]]])
      = Stiefel.projStack [Matrix.of ![![(1 : ℚ)], ![0]]] [Matrix.of ![![(2 : ℚ)], ![3]]] :=
  proj_idempotent_C8 (Matrix.of ![![(1 : ℚ)], ![0]]) (Matrix.of ![![(2 : ℚ)], ![3]])
    [Matrix.of ![![(1 : ℚ)], ![0]]] [Matrix.of ![![(2 : ℚ)], ![3]]]
    (by ext i j
        fin_cases i <;> (fin_cases j; simp [Matrix.mul_apply, Fin.sum_univ_succ, Matrix.one_apply]))
    (by intro A hA
        rw [List.mem_singleton] at hA
        subst hA
        ext i j
        fin_cases i <;> (fin_cases j; simp [Matrix.mul_apply, Fin.sum_univ_succ, Matrix.one_apply]))

/-- C9: `norm(X, G)` is the Frobenius norm of `G` — its square is the sum of
the squared entries — it does not depend on `X` at all, and it equals
`sqrt(inner(X, G, G))`; on stacks `inner` contracts over every axis, slice
index included, returning the single scalar sum of per-slice Frobenius inner
products. -/
theorem norm_frobenius_C9 {n p : ℕ} (X X' G : Mat n p)
    (Xs Xs' Gs Hs : List (Mat n p)) :
    Stiefel.normSq X G = Stiefel.normSq X' G
    ∧ Stiefel.normSq X G = Stiefel.inner X G G
    ∧ Real.sqrt ((Stiefel.normSq X G : ℚ) : ℝ)
        = Real.sqrt ((Stiefel.inner X G G : ℚ) : ℝ)
    ∧ Stiefel.normSqStack Xs Gs = Stiefel.normSqStack Xs' Gs
    ∧ Stiefel.normSqStack Xs Gs = Stiefel.innerStack Xs Gs Gs
    ∧ Real.sqrt ((Stiefel.normSqStack Xs Gs : ℚ) : ℝ)
        = Real.sqrt ((Stiefel.innerStack Xs Gs Gs : ℚ) : ℝ)
    ∧ Stiefel.innerStack Xs Gs Hs
        = (List.zipWith (fun g h => Stiefel.inner g g h) Gs Hs).sum := by
  have h2 : Stiefel.normSq X G = Stiefel.inner X G G := by
    simp [Stiefel.normSq, Stiefel.inner, sq]
  have h5 : Stiefel.normSqStack Xs Gs = Stiefel.innerStack Xs Gs Gs := by
    unfold Stiefel.normSqStack Stiefel.innerStack
    induction Gs with
    | nil => rfl
    | cons g gs ih => simpa [sq] using ih
  exact ⟨rfl, h2, by rw [h2], rfl, h5, by rw [h5], rfl⟩

/-- C10: `randvec` normalizes `proj(X, U)` by its Frobenius norm with no zero
guard; whenever `proj(X, U) ≠ 0` the denominator `‖proj(X, U)‖` is nonzero
and the normalized matrix has squared Frobenius norm exactly 1. -/
theorem randvec_unit_norm_C10 {n p : ℕ} (X U : Mat n p)
    (h : Stiefel.proj X U ≠ 0) :
    Real.sqrt ((Stiefel.normSq X (Stiefel.proj X U) : ℚ) : ℝ) ≠ 0
    ∧ ∑ i : Fin n, ∑ j : Fin p,
        ((Real.sqrt ((Stiefel.normSq X (Stiefel.proj X U) : ℚ) : ℝ))⁻¹
          * ((Stiefel.proj X U i j : ℚ) : ℝ)) ^ 2 = 1 := by
  set V := Stiefel.proj X U with hV
  have hentry : ∃ i j, V i j ≠ 0 := by
    by_contra hc
    push_neg at hc
    exact h (by ext i j; simpa using hc i j)
  obtain ⟨i0, j0, hij⟩ := hentry
  have hs : 0 < Stiefel.normSq X V := by
    unfold Stiefel.normSq
    refine Finset.sum_pos' (fun i _ => Finset.sum_nonneg fun j _ => sq_nonneg _) ?_
    exact ⟨i0, Finset.mem_univ _,
      Finset.sum_pos' (fun j _ => sq_nonneg _)
        ⟨j0, Finset.mem_univ _, pow_two_pos_of_ne_zero hij⟩⟩
  have hsR : (0 : ℝ) < ((Stiefel.normSq X V : ℚ) : ℝ) := by exact_mod_cast hs
  refine ⟨ne_of_gt (Real.sqrt_pos.mpr hsR), ?_⟩
  have hsum : ∑ i : Fin n, ∑ j : Fin p, ((V i j : ℚ) : ℝ) ^ 2
      = ((Stiefel.normSq X V : ℚ) : ℝ) := by
    unfold Stiefel.normSq
    push_cast
    rfl
  have hpull : ∑ i : Fin n, ∑ j : Fin p,
        ((Real.sqrt ((Stiefel.normSq X V : ℚ) : ℝ))⁻¹ * ((V i j : ℚ) : ℝ)) ^ 2
      = ((Real.sqrt ((Stiefel.normSq X V : ℚ) : ℝ))⁻¹) ^ 2
          * ∑ i : Fin n, ∑ j : Fin p, ((V i j : ℚ) : ℝ) ^ 2 := by
    simp only [mul_pow, Finset.mul_sum]
  rw [hpull, hsum, inv_pow, Real.sq_sqrt hsR.le, inv_mul_cancel₀ (ne_of_gt hsR)]

theorem randvec_unit_norm_C10_witness :
    Real.sqrt ((Stiefel.normSq (0 : Mat 1 1) (Stiefel.proj (0 : Mat 1 1) 1) : ℚ) : ℝ) ≠ 0
    ∧ ∑ i : Fin 1, ∑ j : Fin 1,
        ((Real.sqrt ((Stiefel.normSq (0 : Mat 1 1) (Stiefel.proj (0 : Mat 1 1) 1) : ℚ) : ℝ))⁻¹
          * ((Stiefel.proj (0 : Mat 1 1) 1 i j : ℚ) : ℝ)) ^ 2 = 1 :=
  randvec_unit_norm_C10 (0 : Mat 1 1) 1 (by simp [Stiefel.proj])

/-- The sign convention of `retr` maps a zero diagonal entry of `R` to a `+1`
column factor: `sign(sign(0) + 0.5) = 1`. -/
lemma sign_fix_of_zero : npSign (npSign 0 + 1/2) = 1 := by
  norm_num [npSign]

/-- C1: the `k > 1` branch of `retr` does not retract slice by slice — it
evaluates `np.linalg.qr(Y[i])` with `Y` unbound and so raises `NameError` on
every `k ≥ 2` input, here evaluated at the concrete stack of two `2 × 1` zero
slices with a concrete QR kernel. -/
theorem retr_stack_name_error_C1 :
    Stiefel.retrStack (fun M => (M, (0 : Matrix (Fin 1) (Fin 1) ℚ)))
        [(0 : Mat 2 1), 0] [0, 0]
      = Except.error PyErr.nameError := rfl

end PymanoptStiefel
